import Mathlib

/-!
Verification of the task-and-session orchestration engine of the
XTClaudeFeiShu bridge: a shallow embedding of `TaskQueue`,
`SessionManager`, `CommandHandler` and the orchestration parts of
`MessageBridge` (message routing, error handling, progress-card
throttling), with theorems settling the observable contracts of these
components.

Maps (JS `Map`) are embedded as insertion-ordered association lists:
`set` on a fresh key appends, `set` on an existing key updates in place,
iteration follows insertion order, matching JS `Map` semantics.
Wall-clock instants (`Date.now()`) are explicit `Nat` parameters.
-/

namespace XTBridge

/-- Association-list lookup: first entry with the given key (JS `Map.get`). -/
def alookup {α : Type} (k : String) : List (String × α) → Option α
  | [] => none
  | (k', v) :: rest => if k' = k then some v else alookup k rest

/-- Association-list insert/update preserving insertion order (JS `Map.set`). -/
def aset {α : Type} (k : String) (v : α) : List (String × α) → List (String × α)
  | [] => [(k, v)]
  | (k', v') :: rest => if k' = k then (k, v) :: rest else (k', v') :: aset k v rest

/-- Association-list removal of a key (JS `Map.delete`). -/
def aremove {α : Type} (k : String) : List (String × α) → List (String × α)
  | [] => []
  | (k', v') :: rest => if k' = k then rest else (k', v') :: aremove k rest

/-- The fields of an inbound chat message that the queue and bridge use. -/
structure Msg where
  chatId : String
  userId : String
  text : String
deriving DecidableEq, Repr

/-- Task status, from `QueuedTask.status` in `TaskQueue.ts`. -/
inductive TaskStatus where
  | waiting
  | running
  | completed
  | failed
  | cancelled
deriving DecidableEq, Repr

/-- A queued work item, from the `QueuedTask` interface in `TaskQueue.ts`.
Times are `Nat` milliseconds; the task id is supplied by the caller of
`enqueue` (the source generates it from `Date.now()` and `Math.random()`). -/
structure QueuedTask where
  id : String
  message : Msg
  status : TaskStatus
  queuedAt : Nat
  startedAt : Option Nat := none
  completedAt : Option Nat := none
  error : Option String := none
  position : Option Nat := none
deriving DecidableEq, Repr

/-- The `TaskQueue` class state: `queues` maps `botId:projectId` keys to task
lists, `runningTasks` maps the same keys to the id of the task most recently
marked running. -/
structure TQState where
  queues : List (String × List QueuedTask)
  runningTasks : List (String × String)
deriving DecidableEq, Repr

/-- `TaskQueue.getQueueKey`. -/
def getQueueKey (botId projectId : String) : String := botId ++ ":" ++ projectId

/-- The scan of `TaskQueue.updatePositions`: walk the queue in order and give
each `waiting` task the next position counter value; other tasks keep their
stale `position` field untouched. -/
def assignPositions : Nat → List QueuedTask → List QueuedTask
  | _, [] => []
  | p, t :: ts =>
    if t.status = .waiting then { t with position := some p } :: assignPositions (p + 1) ts
    else t :: assignPositions p ts

/-- `TaskQueue.updatePositions`: recompute positions for one key's queue
(no-op when the key has no queue). -/
def TQState.updatePositions (st : TQState) (key : String) : TQState :=
  match alookup key st.queues with
  | none => st
  | some q => { st with queues := aset key (assignPositions 0 q) st.queues }

/-- `TaskQueue.enqueue`: append a `waiting` task with position `queue.length`
to the key's queue (creating the queue if absent), then recompute positions. -/
def TQState.enqueue (st : TQState) (botId projectId : String) (msg : Msg)
    (taskId : String) (now : Nat) : TQState :=
  let key := getQueueKey botId projectId
  let q := (alookup key st.queues).getD []
  let task : QueuedTask :=
    { id := taskId, message := msg, status := .waiting, queuedAt := now,
      position := some q.length }
  let st' : TQState := { st with queues := aset key (q ++ [task]) st.queues }
  st'.updatePositions key

/-- The `findIndex`/mutate step of `TaskQueue.getNext`: locate the first
`waiting` task, mark it `running` with a start time, and return it together
with the updated queue. -/
def markFirstWaiting (now : Nat) : List QueuedTask → Option (QueuedTask × List QueuedTask)
  | [] => none
  | t :: ts =>
    if t.status = .waiting then
      let t' := { t with status := TaskStatus.running, startedAt := some now }
      some (t', t' :: ts)
    else
      match markFirstWaiting now ts with
      | none => none
      | some (r, ts') => some (r, t :: ts')

/-- `TaskQueue.getNext`: return and mark `running` the first `waiting` task of
the key, recording its id in `runningTasks`; `none` when the key has no queue
or no waiting task. Positions are NOT recomputed here (the source calls no
`updatePositions` in `getNext`). -/
def TQState.getNext (st : TQState) (botId projectId : String) (now : Nat) :
    Option QueuedTask × TQState :=
  let key := getQueueKey botId projectId
  match alookup key st.queues with
  | none => (none, st)
  | some q =>
    match markFirstWaiting now q with
    | none => (none, st)
    | some (t, q') =>
      (some t,
        { st with queues := aset key q' st.queues,
                  runningTasks := aset key t.id st.runningTasks })

/-- Does the queue contain a task with this id (`queue.find(t => t.id === taskId)`
being defined)? -/
def containsTask (taskId : String) (q : List QueuedTask) : Bool :=
  q.any fun t => t.id = taskId

/-- The retention test of `TaskQueue.complete`: a task is removed when it is
`completed`/`failed` with a completion time older than the 5-minute retention
window, or when it is `cancelled`. -/
def isPruned (now : Nat) (t : QueuedTask) : Bool :=
  ((t.status = TaskStatus.completed || t.status = TaskStatus.failed) &&
    (match t.completedAt with
     | some c => decide (now - c > 5 * 60 * 1000)
     | none => false)) ||
  t.status = TaskStatus.cancelled

/-- The per-key loop body of `TaskQueue.complete`: in insertion order, the
first queue containing the id has the task marked `completed`, old terminal
and cancelled tasks pruned, the key's running marker deleted and positions
recomputed; later queues are not visited. -/
def completeInQueues (taskId : String) (now : Nat) :
    List (String × List QueuedTask) → List (String × String) →
    List (String × List QueuedTask) × List (String × String)
  | [], running => ([], running)
  | (k, q) :: rest, running =>
    if containsTask taskId q then
      let q1 := q.map fun t =>
        if t.id = taskId then
          { t with status := TaskStatus.completed, completedAt := some now }
        else t
      let q2 := q1.filter fun t => ! isPruned now t
      ((k, assignPositions 0 q2) :: rest, aremove k running)
    else
      let r := completeInQueues taskId now rest running
      ((k, q) :: r.1, r.2)

/-- `TaskQueue.complete`. -/
def TQState.complete (st : TQState) (taskId : String) (now : Nat) : TQState :=
  let r := completeInQueues taskId now st.queues st.runningTasks
  { queues := r.1, runningTasks := r.2 }

/-- The per-key loop body of `TaskQueue.fail`: the first queue containing the
id has the task marked `failed` with the error detail, the key's running
marker deleted and positions recomputed. -/
def failInQueues (taskId errorMessage : String) (now : Nat) :
    List (String × List QueuedTask) → List (String × String) →
    List (String × List QueuedTask) × List (String × String)
  | [], running => ([], running)
  | (k, q) :: rest, running =>
    if containsTask taskId q then
      let q1 := q.map fun t =>
        if t.id = taskId then
          { t with status := TaskStatus.failed, completedAt := some now,
                   error := some errorMessage }
        else t
      ((k, assignPositions 0 q1) :: rest, aremove k running)
    else
      let r := failInQueues taskId errorMessage now rest running
      ((k, q) :: r.1, r.2)

/-- `TaskQueue.fail`. -/
def TQState.fail (st : TQState) (taskId errorMessage : String) (now : Nat) : TQState :=
  let r := failInQueues taskId errorMessage now st.queues st.runningTasks
  { queues := r.1, runningTasks := r.2 }

/-- Remove the first task with the given id (the `splice` of `TaskQueue.cancel`;
the source sets the status to `cancelled` and immediately splices the task out,
so the net queue effect is removal). -/
def removeFirstTask (taskId : String) : List QueuedTask → List QueuedTask
  | [] => []
  | t :: ts => if t.id = taskId then ts else t :: removeFirstTask taskId ts

/-- The per-key loop body of `TaskQueue.cancel`: the first queue whose
`findIndex` hits the id decides the outcome — the task is removed with
positions recomputed when it is `waiting`, otherwise nothing changes and
`false` is returned without visiting later queues. -/
def cancelInQueues (taskId : String) :
    List (String × List QueuedTask) → List (String × List QueuedTask) × Bool
  | [] => ([], false)
  | (k, q) :: rest =>
    match q.find? (fun t => t.id = taskId) with
    | some t =>
      if t.status = .waiting then
        ((k, assignPositions 0 (removeFirstTask taskId q)) :: rest, true)
      else
        ((k, q) :: rest, false)
    | none =>
      let r := cancelInQueues taskId rest
      ((k, q) :: r.1, r.2)

/-- `TaskQueue.cancel` (the running-task marker is not touched). -/
def TQState.cancel (st : TQState) (taskId : String) : TQState × Bool :=
  let r := cancelInQueues taskId st.queues
  ({ st with queues := r.1 }, r.2)

/-- `TaskQueue.getTask`: first match across queues in insertion order. -/
def findInQueues (taskId : String) : List (String × List QueuedTask) → Option QueuedTask
  | [] => none
  | (_, q) :: rest =>
    match q.find? (fun t => t.id = taskId) with
    | some t => some t
    | none => findInQueues taskId rest

/-- `TaskQueue.getTask`. -/
def TQState.getTask (st : TQState) (taskId : String) : Option QueuedTask :=
  findInQueues taskId st.queues

/-- `TaskQueue.getTasks`. -/
def TQState.getTasks (st : TQState) (botId projectId : String) : List QueuedTask :=
  (alookup (getQueueKey botId projectId) st.queues).getD []

/-- `TaskQueue.isRunning`: membership of the key in the running-task marker map. -/
def TQState.isRunning (st : TQState) (botId projectId : String) : Bool :=
  (alookup (getQueueKey botId projectId) st.runningTasks).isSome

/-- Number of tasks with status `running` in a key's queue (the `running`
field of `TaskQueue.getStats`). -/
def runningStatusCount (st : TQState) (botId projectId : String) : Nat :=
  (st.getTasks botId projectId).countP fun t => t.status = TaskStatus.running

/-- Positions of the waiting tasks of a queue, in queue (FIFO) order. -/
def waitingPositions (q : List QueuedTask) : List (Option Nat) :=
  (q.filter fun t => t.status = TaskStatus.waiting).map QueuedTask.position

/-- Number of waiting tasks of a queue. -/
def waitingCount (q : List QueuedTask) : Nat :=
  (q.filter fun t => t.status = TaskStatus.waiting).length

/-- A queue's waiting tasks carry exactly the contiguous 0-based positions
`0, 1, ..., n-1` in queue (FIFO) order. -/
def positionsOk (q : List QueuedTask) : Prop :=
  waitingPositions q = (List.range (waitingCount q)).map some

instance (q : List QueuedTask) : Decidable (positionsOk q) := by
  unfold positionsOk; infer_instance

/-- All queues of the state satisfy `positionsOk`. -/
def TQState.positionsInvariant (st : TQState) : Prop :=
  ∀ p ∈ st.queues, positionsOk p.2

instance (st : TQState) : Decidable st.positionsInvariant := by
  unfold TQState.positionsInvariant; infer_instance

/-- Number of occurrences of a task id across a list of queues. -/
def occurrencesIn (taskId : String) (l : List (String × List QueuedTask)) : Nat :=
  (l.map fun kq => (kq.2.filter fun t => t.id = taskId).length).sum

/-- Total number of occurrences of a task id across all queues. -/
def taskOccurrences (st : TQState) (taskId : String) : Nat :=
  occurrencesIn taskId st.queues

/-- Session interactive status, from the `SessionStatus` enum in `types/index.ts`. -/
inductive SessionStatus where
  | idle
  | executing
  | waiting_input
  | waiting_confirm
deriving DecidableEq, Repr

/-- A pending mid-execution input request, from `InputRequest` in `types/index.ts`. -/
structure InputRequest where
  type : String
  prompt : String
  options : List String
deriving DecidableEq, Repr

/-- An opaque reference to an `ExecutionHandle`. Handles are owned by the
orchestrator; the session store only keeps a reference. `finishThrows` records
whether this handle's `finish()` raises when invoked, so that swallowing of
such errors is observable in the model. -/
structure Handle where
  hid : Nat
  finishThrows : Bool := false
deriving DecidableEq, Repr

/-- Interactive session state, from `SessionState` in `types/index.ts`.
`expiresAt` is a millisecond instant, `0` meaning unset (the lazy-init default). -/
structure SessionState where
  status : SessionStatus
  currentTaskId : String
  executionHandle : Option Handle := none
  inputRequest : Option InputRequest := none
  expiresAt : Nat
  chatId : String
deriving DecidableEq, Repr

/-- The lazy-initialization default used by `SessionManager.setStatus` and
`SessionManager.setState` when a session has no interactive state yet. -/
def defaultSessionState : SessionState :=
  { status := .idle, currentTaskId := "", expiresAt := 0, chatId := "" }

/-- A session record, from `Session` in `types/index.ts`. -/
structure Session where
  botId : String
  userId : String
  projectId : String
  claudeSessionId : String
  createdAt : Nat
  lastActiveAt : Nat
  state : Option SessionState := none
deriving DecidableEq, Repr

/-- The `SessionManager` class state: sessions and per-user project
selections, both keyed by `botId:userId`. -/
structure SMState where
  sessions : List (String × Session)
  userProjectSelections : List (String × String)
deriving DecidableEq, Repr

/-- `SessionManager.getSessionKey` / `getUserSelectionKey`. -/
def sessionKeyOf (botId userId : String) : String := botId ++ ":" ++ userId

/-- `SessionManager.getSession`. -/
def SMState.getSession (sm : SMState) (botId userId : String) : Option Session :=
  alookup (sessionKeyOf botId userId) sm.sessions

/-- `SessionManager.getUserProject`. -/
def SMState.getUserProject (sm : SMState) (botId userId defaultProjectId : String) : String :=
  (alookup (sessionKeyOf botId userId) sm.userProjectSelections).getD defaultProjectId

/-- `SessionManager.getOrCreateSession`: replace the session with a fresh one
(no interactive state) when absent or when the project differs, otherwise
refresh `lastActiveAt`. -/
def SMState.getOrCreateSession (sm : SMState)
    (botId userId projectId claudeSessionId : String) (now : Nat) : SMState :=
  let key := sessionKeyOf botId userId
  let fresh : Session :=
    { botId := botId, userId := userId, projectId := projectId,
      claudeSessionId := claudeSessionId, createdAt := now, lastActiveAt := now }
  match alookup key sm.sessions with
  | some s =>
    if s.projectId ≠ projectId then
      { sm with sessions := aset key fresh sm.sessions }
    else
      { sm with sessions := aset key { s with lastActiveAt := now } sm.sessions }
  | none =>
    { sm with sessions := aset key fresh sm.sessions }

/-- `SessionManager.deleteSession`. -/
def SMState.deleteSession (sm : SMState) (botId userId : String) : SMState :=
  { sm with sessions := aremove (sessionKeyOf botId userId) sm.sessions }

/-- `SessionManager.setStatus`: silent no-op when no session exists under the
key; otherwise lazily initialize the interactive state to the idle defaults
and overwrite its `status`. -/
def SMState.setStatus (sm : SMState) (key : String) (status : SessionStatus) : SMState :=
  match alookup key sm.sessions with
  | none => sm
  | some s =>
    let st := s.state.getD defaultSessionState
    let s' : Session := { s with state := some { st with status := status } }
    { sm with sessions := aset key s' sm.sessions }

/-- A `Partial<SessionState>` argument of `SessionManager.setState`: `none`
fields are absent from the partial object and keep their current value under
`Object.assign` (the source never passes an explicitly undefined field). -/
structure PartialSessionState where
  status : Option SessionStatus := none
  currentTaskId : Option String := none
  executionHandle : Option Handle := none
  inputRequest : Option InputRequest := none
  expiresAt : Option Nat := none
  chatId : Option String := none
deriving DecidableEq, Repr

/-- The `Object.assign(session.state, state)` merge of `SessionManager.setState`. -/
def mergeSessionState (st : SessionState) (p : PartialSessionState) : SessionState :=
  { status := p.status.getD st.status,
    currentTaskId := p.currentTaskId.getD st.currentTaskId,
    executionHandle :=
      match p.executionHandle with
      | some h => some h
      | none => st.executionHandle,
    inputRequest :=
      match p.inputRequest with
      | some r => some r
      | none => st.inputRequest,
    expiresAt := p.expiresAt.getD st.expiresAt,
    chatId := p.chatId.getD st.chatId }

/-- `SessionManager.setState`: silent no-op when no session exists; otherwise
lazily initialize the interactive state and merge the partial update into it. -/
def SMState.setState (sm : SMState) (key : String) (p : PartialSessionState) : SMState :=
  match alookup key sm.sessions with
  | none => sm
  | some s =>
    let st := s.state.getD defaultSessionState
    let s' : Session := { s with state := some (mergeSessionState st p) }
    { sm with sessions := aset key s' sm.sessions }

/-- `SessionManager.clearState`: silent no-op when no session exists; otherwise
set the interactive state to absent. -/
def SMState.clearState (sm : SMState) (key : String) : SMState :=
  match alookup key sm.sessions with
  | none => sm
  | some s =>
    let s' : Session := { s with state := none }
    { sm with sessions := aset key s' sm.sessions }

/-- `SessionManager.getState`. -/
def SMState.getState (sm : SMState) (key : String) : Option SessionState :=
  (alookup key sm.sessions).bind Session.state

/-- One session's treatment by the interactive-timeout sweep of
`SessionManager.startTimeoutChecker`: a session is cleared exactly when it has
interactive state with a truthy (nonzero) `expiresAt` strictly in the past and
a non-idle status; `finish()` is invoked on the execution handle when one is
stored (inside try/catch, so a throwing `finish` still leads to the clear).
Returns the updated session and the handles whose `finish()` was invoked. -/
def sweepSession (now : Nat) (s : Session) : Session × List Handle :=
  match s.state with
  | none => (s, [])
  | some st =>
    if st.expiresAt ≠ 0 ∧ now > st.expiresAt then
      if st.status ≠ SessionStatus.idle then
        ({ s with state := none },
         match st.executionHandle with
         | some h => [h]
         | none => [])
      else (s, [])
    else (s, [])

/-- The loop of the interactive-timeout sweep over all sessions, collecting the
handles that got `finish()` invoked. -/
def sweepSessions (now : Nat) :
    List (String × Session) → List (String × Session) × List Handle
  | [] => ([], [])
  | (k, s) :: rest =>
    let r := sweepSession now s
    let r' := sweepSessions now rest
    ((k, r.1) :: r'.1, r.2 ++ r'.2)

/-- The interactive-timeout sweep (`SessionManager.startTimeoutChecker` body)
run once at instant `now`. -/
def SMState.timeoutSweep (sm : SMState) (now : Nat) : SMState × List Handle :=
  let r := sweepSessions now sm.sessions
  ({ sm with sessions := r.1 }, r.2)

/-- A project of a bot's configuration (the fields the routing logic reads). -/
structure Project where
  id : String
  name : String
  path : String
deriving DecidableEq, Repr

/-- A bot's configuration (the fields the routing logic reads). -/
structure Bot where
  id : String
  currentProjectId : String
  projects : List Project
deriving DecidableEq, Repr

/-- The recognized command names of `CommandHandler.parseCommand`
(the current revision, with `status`). -/
inductive CommandType where
  | switch
  | reset
  | stop
  | status
  | help
  | skills
  | projects
deriving DecidableEq, Repr

/-- A parsed command, from `Command` in `types/index.ts`. -/
structure Command where
  type : CommandType
  args : List String
  clearOpt : Bool := false
  subCommand : Option String := none
deriving DecidableEq, Repr

/-- Validation of the command word against `validCommands`. -/
def commandTypeOf : String → Option CommandType
  | "switch" => some .switch
  | "reset" => some .reset
  | "stop" => some .stop
  | "status" => some .status
  | "help" => some .help
  | "skills" => some .skills
  | "projects" => some .projects
  | _ => none

/-- Whitespace word-splitting over the character list of a message, with an
accumulator for the word being read (reversed). `trimmed.split(/\s+/)` on a
trimmed string yields exactly the nonempty whitespace-separated words, which
is what this computes. -/
def wordsAux : List Char → List Char → List String
  | acc, [] => if acc.isEmpty then [] else [⟨acc.reverse⟩]
  | acc, c :: cs =>
    if c.isWhitespace then
      if acc.isEmpty then wordsAux [] cs
      else (⟨acc.reverse⟩ : String) :: wordsAux [] cs
    else wordsAux (c :: acc) cs

/-- `CommandHandler.parseCommand`: a message is a command when its trimmed
text starts with `/` and the word after the slash is one of the valid
commands; arguments come from whitespace splitting, the first `--clear` is
spliced into an option, and `/projects` takes a `list`/`add`/`remove`
sub-command. The trimmed text starts with `/` exactly when the first
whitespace-separated word does. -/
def parseCommand (text : String) : Option Command :=
  match wordsAux [] text.data with
  | [] => none
  | p0 :: args0 =>
    match p0.data with
    | '/' :: cmdChars =>
      let command : String := ⟨cmdChars⟩
      let subCommand :=
        if command = "projects" then
          match args0.head? with
          | some s => if s = "list" ∨ s = "add" ∨ s = "remove" then some s else none
          | none => none
        else none
      let clearOpt := args0.contains "--clear"
      let args := args0.erase "--clear"
      match commandTypeOf command with
      | some ty =>
        some { type := ty, args := args, clearOpt := clearOpt, subCommand := subCommand }
      | none => none
    | _ => none

/-- Observable actions of the orchestrator: outbound channel calls, calls into
the execution handle, dispatch into the command subsystem, and task starts.
Card payloads are abstracted to a tag naming the card kind. -/
inductive Effect where
  | sendText (chatId text : String)
  | sendCard (chatId cardTag : String)
  | updateCardFx (chatId cardTag : String)
  | execCommand (cmd : Command)
  | sendMessageTo (h : Handle) (text : String)
  | finishHandle (h : Handle)
  | resumeDrain (h : Handle)
  | startTask (taskId : String)
deriving DecidableEq, Repr

/-- Result of `CommandHandler.handle`: updated session store, emitted effects,
and the boolean the bridge tests (`true` means the message was consumed). -/
structure CHResult where
  sm : SMState
  effects : List Effect
  handled : Bool
deriving Repr

/-- The acknowledgement text sent after a reply is forwarded to the SDK. -/
def ackText : String := "已收到你的回复，继续执行..."

/-- `CommandHandler.handle` (current revision): when the user's session is in
a waiting status, a parsed command cancels the wait (`finish()` on the stored
handle when present, `clearState`, then the command executes), and any other
text is forwarded as the user's response (`sendMessage` on the handle,
status back to `executing`, acknowledgement) — note no resumption of the
outbound drain happens here; otherwise commands dispatch normally and
non-commands are not consumed. The bodies of the individual command handlers
perform external I/O and are modeled as an opaque `execCommand` dispatch
effect. -/
def commandHandlerHandle (bot : Bot) (sm : SMState) (msg : Msg) : CHResult :=
  let sessionKey := sessionKeyOf bot.id msg.userId
  let waitingCase :=
    match sm.getSession bot.id msg.userId with
    | some session =>
      match session.state with
      | some st =>
        if st.status = SessionStatus.waiting_input ∨
           st.status = SessionStatus.waiting_confirm then
          some (session, st)
        else none
      | none => none
    | none => none
  match waitingCase with
  | some (session, st) =>
    (match parseCommand msg.text with
     | some cmd =>
       let finishFx :=
         match st.executionHandle with
         | some h => [Effect.finishHandle h]
         | none => []
       { sm := sm.clearState sessionKey,
         effects := finishFx ++ [Effect.execCommand cmd],
         handled := true }
     | none =>
       match st.executionHandle with
       | none =>
         { sm := sm,
           effects := [Effect.sendText st.chatId "会话已过期，请重新开始"],
           handled := true }
       | some h =>
         { sm := sm.setStatus (sessionKeyOf session.botId session.userId)
                   SessionStatus.executing,
           effects := [Effect.sendMessageTo h msg.text,
                       Effect.sendText st.chatId ackText],
           handled := true })
  | none =>
    match parseCommand msg.text with
    | some cmd => { sm := sm, effects := [Effect.execCommand cmd], handled := true }
    | none => { sm := sm, effects := [], handled := false }

/-- Result of `MessageBridge.handle`: updated stores and emitted effects. -/
structure MBResult where
  sm : SMState
  tq : TQState
  effects : List Effect
deriving Repr

/-- `MessageBridge.handle`: first the command handler runs (consuming
commands and all traffic of waiting sessions); then the user's project is
resolved; then a session with a stored execution handle receives the text as
a reply (`sendMessage`, status `executing`, acknowledgement,
`resumeExecution` drain); otherwise the message is enqueued — with a queue
notification when a task is already running for the workspace, or followed by
an immediate `executeTask` start when not. `taskId` stands for the id the
source generates for the enqueued task. -/
def messageBridgeHandle (bot : Bot) (sm : SMState) (tq : TQState) (msg : Msg)
    (taskId : String) (now : Nat) : MBResult :=
  let ch := commandHandlerHandle bot sm msg
  if ch.handled then
    { sm := ch.sm, tq := tq, effects := ch.effects }
  else
    let projectId := ch.sm.getUserProject bot.id msg.userId bot.currentProjectId
    match bot.projects.find? (fun p => p.id = projectId) with
    | none =>
      { sm := ch.sm, tq := tq,
        effects := [Effect.sendText msg.chatId "Project not found."] }
    | some project =>
      let activeHandle :=
        ((ch.sm.getSession bot.id msg.userId).bind Session.state).bind
          SessionState.executionHandle
      match activeHandle with
      | some h =>
        { sm := ch.sm.setStatus (sessionKeyOf bot.id msg.userId)
                  SessionStatus.executing,
          tq := tq,
          effects := [Effect.sendMessageTo h msg.text,
                      Effect.sendText msg.chatId ackText,
                      Effect.resumeDrain h] }
      | none =>
        if tq.isRunning bot.id project.id then
          { sm := ch.sm,
            tq := tq.enqueue bot.id project.id msg taskId now,
            effects := [Effect.sendText msg.chatId "任务已加入队列"] }
        else
          { sm := ch.sm,
            tq := tq.enqueue bot.id project.id msg taskId now,
            effects := [Effect.startTask taskId] }

/-- The `setState` payload of `MessageBridge.executeTask` that stores the
freshly created execution handle in the session (status `executing`, current
task, chat, and a 30-minute total-execution deadline). -/
def startExecPartial (taskId : String) (h : Handle) (chatId : String) (now : Nat) :
    PartialSessionState :=
  { status := some SessionStatus.executing,
    currentTaskId := some taskId,
    executionHandle := some h,
    chatId := some chatId,
    expiresAt := some (now + 30 * 60 * 1000) }

/-- `MessageBridge.handleUserInputRequest` on the session store: set the
waiting status for the input kind (`confirmation` and `choice` wait for a
confirm, anything else for free text), then merge the request payload and a
5-minute deadline into the state. The card send is an effect of the caller. -/
def inputRequiredOp (sm : SMState) (key : String)
    (inputType prompt : String) (options : List String) (now : Nat) : SMState :=
  let status :=
    if inputType = "confirmation" then SessionStatus.waiting_confirm
    else if inputType = "choice" then SessionStatus.waiting_confirm
    else SessionStatus.waiting_input
  (sm.setStatus key status).setState key
    { inputRequest := some { type := inputType, prompt := prompt, options := options },
      expiresAt := some (now + 5 * 60 * 1000) }

/-- `MessageBridge.handleExecutionError`: clear the session's interactive
state, mark the task failed when a task object was passed (`fail` is skipped
on `null`), send or update an error card, and pull the next waiting task for
the workspace (`processNextTask`: a 1-second delay then `getNext`, notifying
and starting the task when one exists). -/
def handleExecutionError (sm : SMState) (tq : TQState) (sessionKey : String)
    (task : Option QueuedTask) (chatId errorMessage : String)
    (botId projectId : String) (currentCardId : String) (now : Nat) :
    SMState × TQState × List Effect :=
  let sm1 := sm.clearState sessionKey
  let tq1 :=
    match task with
    | some t => tq.fail t.id errorMessage now
    | none => tq
  let cardFx :=
    if currentCardId ≠ "" then [Effect.updateCardFx chatId "error"]
    else [Effect.sendCard chatId "error"]
  let next := tq1.getNext botId projectId (now + 1000)
  let nextFx :=
    match next.1 with
    | some t => [Effect.sendText t.message.chatId "轮到你的任务了，开始执行...",
                 Effect.startTask t.id]
    | none => []
  (sm1, next.2, cardFx ++ nextFx)

/-- The catch clause of `MessageBridge.resumeExecution`: any error during a
resume invokes `handleExecutionError` with a `null` task, the state's chat id
(or empty), and the session's bot and project. -/
def resumeExecutionOnError (sm : SMState) (tq : TQState) (session : Session)
    (errorMessage : String) (currentCardId : String) (now : Nat) :
    SMState × TQState × List Effect :=
  handleExecutionError sm tq (sessionKeyOf session.botId session.userId) none
    (match session.state with
     | some st => st.chatId
     | none => "")
    errorMessage session.botId session.projectId currentCardId now

/-- The progress-card throttling state of `MessageBridge`
(`lastUpdateTime`, `pendingUpdate`, `pendingCardContent`), together with the
chronological log `issued` of `(time, payload)` pairs for the progress-card
updates actually pushed to the channel. A pending timer is represented by its
firing deadline; card payloads are abstracted to `Nat` identifiers. -/
structure ThrottleState where
  lastUpdateTime : Nat := 0
  pendingTimer : Option Nat := none
  pendingCardContent : Option Nat := none
  issued : List (Nat × Nat) := []
deriving DecidableEq, Repr

/-- The minimum interval between progress-card updates (`minUpdateInterval`). -/
def minUpdateInterval : Nat := 1000

/-- `MessageBridge.doUpdateCard` at instant `now`: push the pending payload to
the channel (recording it in `issued` and advancing `lastUpdateTime`), or do
nothing when no payload is pending. -/
def doUpdateCard (ts : ThrottleState) (now : Nat) : ThrottleState :=
  match ts.pendingCardContent with
  | none => ts
  | some payload =>
    { ts with pendingCardContent := none, lastUpdateTime := now,
              issued := ts.issued ++ [(now, payload)] }

/-- `MessageBridge.updateCard` at instant `now`: store the payload as the
single pending card content; within `minUpdateInterval` of the last update,
(re)schedule the trailing timer for `lastUpdateTime + minUpdateInterval`
(replacing any previously scheduled timer) and push nothing; otherwise cancel
any pending timer and push immediately. -/
def updateCardOp (ts : ThrottleState) (now : Nat) (payload : Nat) : ThrottleState :=
  let ts1 : ThrottleState := { ts with pendingCardContent := some payload }
  if now - ts1.lastUpdateTime < minUpdateInterval then
    { ts1 with pendingTimer := some (ts1.lastUpdateTime + minUpdateInterval) }
  else
    doUpdateCard { ts1 with pendingTimer := none } now

/-- The trailing timer firing at instant `now`: runs `doUpdateCard` and
consumes the timer. -/
def timerFire (ts : ThrottleState) (now : Nat) : ThrottleState :=
  doUpdateCard { ts with pendingTimer := none } now

/-- The step performed right before the final result card is sent
(`executeTask` / `handleExecutionComplete` / `handleExecutionError`):
`clearTimeout` on any pending timer and null it out. The pending card content
is NOT pushed — `doUpdateCard` is not called here, so a coalesced progress
payload awaiting its trailing timer is discarded. -/
def finalizeBeforeResult (ts : ThrottleState) : ThrottleState :=
  { ts with pendingTimer := none }

/-- Timed events hitting the throttling machinery: a progress-update request
(`updateCard` call) or the scheduled trailing timer firing. -/
inductive ThrottleOp where
  | update (now : Nat) (payload : Nat)
  | fire (now : Nat)
deriving DecidableEq, Repr

/-- The time at which a throttle event occurs. -/
def ThrottleOp.time : ThrottleOp → Nat
  | .update now _ => now
  | .fire now => now

/-- One throttle event: a `fire` only has an effect when a timer is actually
pending and its deadline has been reached (a cancelled timer never fires). -/
def stepThrottle (ts : ThrottleState) : ThrottleOp → ThrottleState
  | .update now payload => updateCardOp ts now payload
  | .fire now =>
    match ts.pendingTimer with
    | some d => if d ≤ now then timerFire ts now else ts
    | none => ts

/-- Run a sequence of throttle events. -/
def runThrottle (ts : ThrottleState) : List ThrottleOp → ThrottleState
  | [] => ts
  | op :: ops => runThrottle (stepThrottle ts op) ops

/-- Event times are nondecreasing and start no earlier than the clock. -/
def wellTimed : Nat → List ThrottleOp → Prop
  | _, [] => True
  | clock, op :: ops => clock ≤ op.time ∧ wellTimed op.time ops

/-- Consecutive elements of a chronological list are at least `gap` apart. -/
def spacedBy (gap : Nat) : List Nat → Prop
  | [] => True
  | [_] => True
  | a :: b :: rest => a + gap ≤ b ∧ spacedBy gap (b :: rest)

/-- The throttle state at the start of a task execution (`executeTask` resets
`lastUpdateTime`, `pendingUpdate` and `pendingCardContent`). -/
def initialThrottle : ThrottleState := {}

/-- The inductive invariant of the throttling machinery at a clock instant:
issued updates are spaced by the minimum interval, `lastUpdateTime` is the
time of the last issued update (0 before the first), any scheduled trailing
timer fires exactly one interval after the last update, and the clock has
reached `lastUpdateTime`. -/
def throttleInv (ts : ThrottleState) (clock : Nat) : Prop :=
  spacedBy minUpdateInterval (ts.issued.map Prod.fst) ∧
  (ts.issued.map Prod.fst).getLastD 0 = ts.lastUpdateTime ∧
  (∀ d, ts.pendingTimer = some d → d = ts.lastUpdateTime + minUpdateInterval) ∧
  ts.lastUpdateTime ≤ clock

/-- Session-store transitions performed by the orchestrator and the sweeps, as
found in the source: session creation/refresh and deletion, the storing of a
fresh execution handle by `executeTask`, the waiting transition of
`handleUserInputRequest`, the reply transition (guarded in both reply paths by
the presence of a stored handle), the `clearState` of
completion/error/command-cancellation, and one run of the interactive-timeout
sweep. -/
inductive SMStep : SMState → SMState → Prop where
  | getOrCreate (sm : SMState) (botId userId projectId claudeSessionId : String)
      (now : Nat) :
      SMStep sm (sm.getOrCreateSession botId userId projectId claudeSessionId now)
  | deleteSession (sm : SMState) (botId userId : String) :
      SMStep sm (sm.deleteSession botId userId)
  | startExec (sm : SMState) (key taskId chatId : String) (h : Handle) (now : Nat) :
      SMStep sm (sm.setState key (startExecPartial taskId h chatId now))
  | inputRequired (sm : SMState) (key inputType prompt : String)
      (options : List String) (now : Nat) :
      SMStep sm (inputRequiredOp sm key inputType prompt options now)
  | reply (sm : SMState) (key : String)
      (hguard : ((sm.getState key).bind SessionState.executionHandle).isSome) :
      SMStep sm (sm.setStatus key SessionStatus.executing)
  | clearState (sm : SMState) (key : String) :
      SMStep sm (sm.clearState key)
  | sweep (sm : SMState) (now : Nat) :
      SMStep sm (sm.timeoutSweep now).1

/-- Session-store states reachable from the empty store through the
orchestrator's transitions. -/
inductive SMReachable : SMState → Prop where
  | init : SMReachable { sessions := [], userProjectSelections := [] }
  | step {sm sm' : SMState} : SMReachable sm → SMStep sm sm' → SMReachable sm'

/-- A session whose interactive state, when it has a non-null execution
handle, has a status in `{executing, waiting_input, waiting_confirm}`
(equivalently, not `idle`). -/
def goodSession (s : Session) : Prop :=
  ∀ st, s.state = some st → st.executionHandle.isSome →
    st.status ≠ SessionStatus.idle

/-- Every stored session's interactive state with a non-null execution handle
has a status in `{executing, waiting_input, waiting_confirm}`. -/
def handleStatusInv (sm : SMState) : Prop :=
  ∀ p ∈ sm.sessions, goodSession p.2

/-! Concrete scenario states used to evaluate the model on the spec's
scenarios. -/

/-- A first inbound message. -/
def exMsg1 : Msg := { chatId := "c1", userId := "u1", text := "hi" }

/-- A second inbound message from another user. -/
def exMsg2 : Msg := { chatId := "c2", userId := "u2", text := "go" }

/-- A `/help` message from the first user. -/
def exCmdMsg : Msg := { chatId := "c1", userId := "u1", text := "/help" }

/-- An execution handle reference. -/
def exHandle : Handle := { hid := 7 }

/-- The empty task queue. -/
def tq0 : TQState := { queues := [], runningTasks := [] }

/-- Scenario A step 1: T1 enqueued for key `b:p` into the empty queue. -/
def scA1 : TQState := tq0.enqueue "b" "p" exMsg1 "t1" 0

/-- Scenario A step 2: after `getNext` returned T1. -/
def scA2 : TQState := (scA1.getNext "b" "p" 1).2

/-- Scenario A step 3: T2 enqueued behind the running T1. -/
def scA3 : TQState := scA2.enqueue "b" "p" exMsg2 "t2" 2

/-- Scenario A, guarded branch: `complete(T1.id)` called from `scA3`. -/
def scA4 : TQState := scA3.complete "t1" 4

/-- Two tasks enqueued, then `getNext` (which recomputes no positions). -/
def scPos : TQState := ((tq0.enqueue "b" "p" exMsg1 "t1" 0).enqueue "b" "p" exMsg2 "t2" 1).getNext "b" "p" 2 |>.2

/-- A bot with one project. -/
def exBot : Bot :=
  { id := "b", currentProjectId := "p",
    projects := [{ id := "p", name := "proj", path := "/w" }] }

/-- An interactive state paused on a free-text input request, holding the
execution handle. -/
def waitingState : SessionState :=
  { status := .waiting_input, currentTaskId := "t1",
    executionHandle := some exHandle,
    inputRequest := some { type := "text", prompt := "which file?", options := [] },
    expiresAt := 90000000, chatId := "c1" }

/-- The session of user `u1` paused on the input request. -/
def waitingSession : Session :=
  { botId := "b", userId := "u1", projectId := "p", claudeSessionId := "s1",
    createdAt := 0, lastActiveAt := 0, state := some waitingState }

/-- A session store holding only the paused session. -/
def waitingSM : SMState :=
  { sessions := [("b:u1", waitingSession)], userProjectSelections := [] }

/-- The bridge handling a plain (non-command) reply while `u1` is paused. -/
def replyRes : MBResult := messageBridgeHandle exBot waitingSM tq0 exMsg1 "tX" 50

/-- An interactive state whose `expiresAt` was left at the lazy-init default 0
(as `setStatus` produces when no `setState` supplied a deadline). -/
def zeroExpiryState : SessionState :=
  { status := .waiting_input, currentTaskId := "t1",
    executionHandle := some exHandle, expiresAt := 0, chatId := "c1" }

/-- A session store holding a non-idle session with `expiresAt = 0`. -/
def zeroExpirySM : SMState :=
  { sessions := [("b:u1", { waitingSession with state := some zeroExpiryState })],
    userProjectSelections := [] }

/-- Reachability trace for the session store: session created. -/
def trace1 : SMState :=
  SMState.getOrCreateSession { sessions := [], userProjectSelections := [] }
    "b" "u1" "p" "s1" 0

/-- Trace step: `executeTask` stores the execution handle (30-minute deadline). -/
def trace2 : SMState := trace1.setState "b:u1" (startExecPartial "t1" exHandle "c1" 0)

/-- Trace step: the interactive-timeout sweep fires after the deadline. -/
def trace3 : SMState := (trace2.timeoutSweep 2000000).1

/-- Trace step: an `input_required` event arrives after the sweep cleared the
state. -/
def trace4 : SMState := inputRequiredOp trace3 "b:u1" "text" "which file?" [] 2000001

/-- A session executing task `t1` (as stored by `executeTask`). -/
def execSession : Session :=
  { botId := "b", userId := "u1", projectId := "p", claudeSessionId := "s1",
    createdAt := 0, lastActiveAt := 0,
    state := some { status := .executing, currentTaskId := "t1",
                    executionHandle := some exHandle, expiresAt := 1800000,
                    chatId := "c1" } }

/-- A session store holding the executing session. -/
def execSM : SMState :=
  { sessions := [("b:u1", execSession)], userProjectSelections := [] }

/-- A resume error hitting the queue of Scenario A while T1 runs: the catch
clause of `resumeExecution` passes a `null` task. -/
def resumeErrRes : SMState × TQState × List Effect :=
  resumeExecutionOnError execSM scA2 execSession "boom" "card1" 100

/-- The running task T1 as it sits in Scenario A's queue after `getNext`. -/
def scT1run : QueuedTask :=
  { id := "t1", message := exMsg1, status := .running, queuedAt := 0,
    startedAt := some 1, position := some 0 }

/-- A throttle state one half-second after an issued update, with a coalesced
payload awaiting its trailing timer. -/
def pendingTS : ThrottleState :=
  { lastUpdateTime := 5000, pendingTimer := some 6000,
    pendingCardContent := some 7, issued := [(5000, 3)] }

/-- A handle whose `finish()` raises. -/
def throwingHandle : Handle := { hid := 9, finishThrows := true }

/-- An interactive state past its deadline whose handle's `finish()` raises. -/
def expiredState : SessionState :=
  { status := .executing, currentTaskId := "t1",
    executionHandle := some throwingHandle, expiresAt := 1800000, chatId := "c1" }

/-- The session holding `expiredState`. -/
def expiredSession : Session :=
  { botId := "b", userId := "u1", projectId := "p", claudeSessionId := "s1",
    createdAt := 0, lastActiveAt := 0, state := some expiredState }

/-- A session store holding only `expiredSession`. -/
def expiredSM : SMState :=
  { sessions := [("b:u1", expiredSession)], userProjectSelections := [] }

/-! Helper lemmas. -/

theorem alookup_aset {α : Type} (k key : String) (v : α) (l : List (String × α)) :
    alookup k (aset key v l) = if key = k then some v else alookup k l := by
  induction l with
  | nil => simp [aset, alookup]
  | cons hd tl ih =>
    obtain ⟨k', v'⟩ := hd
    by_cases h1 : k' = key
    · subst h1
      by_cases h2 : k' = k <;> simp [aset, alookup, h2]
    · by_cases h2 : k' = k
      · subst h2
        have h3 : ¬ key = k' := fun h => h1 h.symm
        simp [aset, alookup, h1, h3]
      · simp [aset, alookup, h1, h2, ih]

theorem getState_clearState (sm : SMState) (key : String) :
    SMState.getState (sm.clearState key) key = none := by
  unfold SMState.clearState SMState.getState
  cases h : alookup key sm.sessions with
  | none => simp [h]
  | some s => simp [alookup_aset]

theorem assignPositions_mem_id (p : Nat) (q : List QueuedTask) (x : QueuedTask)
    (hx : x ∈ assignPositions p q) : ∃ y ∈ q, x.id = y.id := by
  induction q generalizing p with
  | nil => cases hx
  | cons t ts ih =>
    unfold assignPositions at hx
    by_cases h : t.status = TaskStatus.waiting
    · rw [if_pos h] at hx
      rcases List.mem_cons.mp hx with h1 | h1
      · exact ⟨t, List.mem_cons_self t ts, by rw [h1]⟩
      · obtain ⟨y, hy, hid⟩ := ih _ h1
        exact ⟨y, List.mem_cons_of_mem _ hy, hid⟩
    · rw [if_neg h] at hx
      rcases List.mem_cons.mp hx with h1 | h1
      · exact ⟨t, List.mem_cons_self t ts, by rw [h1]⟩
      · obtain ⟨y, hy, hid⟩ := ih _ h1
        exact ⟨y, List.mem_cons_of_mem _ hy, hid⟩

theorem removeFirstTask_no_id (id : String) (q : List QueuedTask)
    (hcount : (q.filter fun u => u.id = id).length ≤ 1) :
    ∀ x ∈ removeFirstTask id q, x.id ≠ id := by
  induction q with
  | nil => intro x hx; cases hx
  | cons t ts ih =>
    intro x hx
    by_cases h : t.id = id
    · rw [removeFirstTask, if_pos h] at hx
      have hc := hcount
      rw [List.filter_cons, if_pos (by simpa using h)] at hc
      rw [List.length_cons] at hc
      have hnil : ts.filter (fun u => u.id = id) = [] := by
        have : (ts.filter fun u => u.id = id).length = 0 := by omega
        exact List.length_eq_zero.mp this
      intro hxid
      have hmem : x ∈ ts.filter fun u => u.id = id :=
        List.mem_filter.mpr ⟨hx, by simpa using hxid⟩
      rw [hnil] at hmem
      cases hmem
    · rw [removeFirstTask, if_neg h] at hx
      rcases List.mem_cons.mp hx with h1 | h1
      · rw [h1]; exact h
      · have hc := hcount
        rw [List.filter_cons, if_neg (by simpa using h)] at hc
        exact ih hc x h1

theorem findInQueues_eq_none_of_occ_zero (id : String)
    (l : List (String × List QueuedTask)) (h0 : occurrencesIn id l = 0) :
    findInQueues id l = none := by
  induction l with
  | nil => rfl
  | cons kq rest ih =>
    obtain ⟨k, q⟩ := kq
    have h0' : (q.filter fun u => u.id = id).length + occurrencesIn id rest = 0 := by
      unfold occurrencesIn at h0 ⊢
      simpa using h0
    have hq : q.find? (fun t => t.id = id) = none := by
      rw [List.find?_eq_none]
      intro x hx hpx
      have hmem : x ∈ q.filter fun u => u.id = id := List.mem_filter.mpr ⟨hx, hpx⟩
      have hnil : q.filter (fun u => u.id = id) = [] := by
        have : (q.filter fun u => u.id = id).length = 0 := by omega
        exact List.length_eq_zero.mp this
      rw [hnil] at hmem
      cases hmem
    unfold findInQueues
    rw [hq]
    exact ih (by omega)

theorem cancelInQueues_true_iff (id : String) (l : List (String × List QueuedTask)) :
    (cancelInQueues id l).2 = true ↔
      ∃ t, findInQueues id l = some t ∧ t.status = TaskStatus.waiting := by
  induction l with
  | nil => simp [cancelInQueues, findInQueues]
  | cons kq rest ih =>
    obtain ⟨k, q⟩ := kq
    cases hf : q.find? (fun t => t.id = id) with
    | some t =>
      by_cases hw : t.status = TaskStatus.waiting
      · simp [cancelInQueues, findInQueues, hf, hw]
      · simp [cancelInQueues, findInQueues, hf, hw]
    | none =>
      simp only [cancelInQueues, findInQueues, hf]
      exact ih

theorem cancelInQueues_false_frame (id : String) (l : List (String × List QueuedTask))
    (hfalse : (cancelInQueues id l).2 = false) : (cancelInQueues id l).1 = l := by
  induction l with
  | nil => rfl
  | cons kq rest ih =>
    obtain ⟨k, q⟩ := kq
    cases hf : q.find? (fun t => t.id = id) with
    | some t =>
      by_cases hw : t.status = TaskStatus.waiting
      · simp [cancelInQueues, hf, hw] at hfalse
      · simp [cancelInQueues, hf, hw]
    | none =>
      simp only [cancelInQueues, hf] at hfalse ⊢
      rw [ih hfalse]

theorem cancelInQueues_removes (id : String) (l : List (String × List QueuedTask))
    (hocc : occurrencesIn id l ≤ 1) (htrue : (cancelInQueues id l).2 = true) :
    findInQueues id (cancelInQueues id l).1 = none := by
  induction l with
  | nil => simp [cancelInQueues] at htrue
  | cons kq rest ih =>
    obtain ⟨k, q⟩ := kq
    cases hf : q.find? (fun t => t.id = id) with
    | some t =>
      by_cases hw : t.status = TaskStatus.waiting
      · have htq : t ∈ q := List.mem_of_find?_eq_some hf
        have htid : t.id = id := by
          have := List.find?_some hf
          simpa using this
        have hqlen : 0 < (q.filter fun u => u.id = id).length :=
          List.length_pos_of_mem (List.mem_filter.mpr ⟨htq, by simpa using htid⟩)
        have hocc' : (q.filter fun u => u.id = id).length +
            occurrencesIn id rest ≤ 1 := by
          unfold occurrencesIn at hocc ⊢
          simpa using hocc
        have hql : (q.filter fun u => u.id = id).length ≤ 1 := by omega
        simp only [cancelInQueues, hf, hw, if_pos]
        unfold findInQueues
        have hnone : (assignPositions 0 (removeFirstTask id q)).find?
            (fun t => t.id = id) = none := by
          rw [List.find?_eq_none]
          intro x hx hpx
          obtain ⟨y, hy, hxy⟩ := assignPositions_mem_id 0 _ x hx
          have hyid : y.id ≠ id := removeFirstTask_no_id id q hql y hy
          exact hyid (by rw [← hxy]; exact of_decide_eq_true hpx)
        rw [hnone]
        exact findInQueues_eq_none_of_occ_zero id rest (by omega)
      · simp [cancelInQueues, hf, hw] at htrue
    | none =>
      have hq0 : (q.filter fun u => u.id = id) = [] := by
        rw [List.filter_eq_nil_iff]
        intro x hx
        exact List.find?_eq_none.mp hf x hx
      have hrest : occurrencesIn id rest ≤ 1 := by
        have hocc' : (q.filter fun u => u.id = id).length +
            occurrencesIn id rest ≤ 1 := by
          unfold occurrencesIn at hocc ⊢
          simpa using hocc
        omega
      simp only [cancelInQueues, hf] at htrue ⊢
      unfold findInQueues
      rw [show (q.find? fun t => t.id = id) = none from hf]
      exact ih hrest htrue

theorem waitingCount_assignPositions (p : Nat) (q : List QueuedTask) :
    waitingCount (assignPositions p q) = waitingCount q := by
  induction q generalizing p with
  | nil => rfl
  | cons t ts ih =>
    by_cases h : t.status = TaskStatus.waiting
    · have h2 := ih (p + 1)
      simp [assignPositions, waitingCount, List.filter_cons, h] at h2 ⊢
      omega
    · have h2 := ih p
      simp [assignPositions, waitingCount, List.filter_cons, h] at h2 ⊢
      omega

theorem waitingPositions_assignPositions (p : Nat) (q : List QueuedTask) :
    waitingPositions (assignPositions p q) =
      (List.range' p (waitingCount q)).map some := by
  induction q generalizing p with
  | nil => rfl
  | cons t ts ih =>
    by_cases h : t.status = TaskStatus.waiting
    · have h2 := ih (p + 1)
      simp [assignPositions, waitingPositions, waitingCount, List.filter_cons, h,
        List.range'_succ] at h2 ⊢
      exact h2
    · have h2 := ih p
      simp [assignPositions, waitingPositions, waitingCount, List.filter_cons, h]
        at h2 ⊢
      exact h2

theorem positionsOk_assignPositions (q : List QueuedTask) :
    positionsOk (assignPositions 0 q) := by
  unfold positionsOk
  rw [waitingPositions_assignPositions, waitingCount_assignPositions,
    List.range_eq_range']

theorem aset_aset {α : Type} (key : String) (u w : α) (l : List (String × α)) :
    aset key w (aset key u l) = aset key w l := by
  induction l with
  | nil => simp [aset]
  | cons hd tl ih =>
    obtain ⟨k', v'⟩ := hd
    by_cases h : k' = key
    · simp [aset, h]
    · simp [aset, h, ih]

theorem mem_aset {α : Type} {x : String × α} (key : String) (v : α)
    (l : List (String × α)) (hx : x ∈ aset key v l) : x = (key, v) ∨ x ∈ l := by
  induction l with
  | nil => simpa [aset] using hx
  | cons hd tl ih =>
    obtain ⟨k', v'⟩ := hd
    by_cases h : k' = key
    · rw [aset, if_pos h] at hx
      rcases List.mem_cons.mp hx with h1 | h1
      · exact Or.inl h1
      · exact Or.inr (List.mem_cons_of_mem _ h1)
    · rw [aset, if_neg h] at hx
      rcases List.mem_cons.mp hx with h1 | h1
      · exact Or.inr (by rw [h1]; exact List.mem_cons_self _ _)
      · rcases ih h1 with h2 | h2
        · exact Or.inl h2
        · exact Or.inr (List.mem_cons_of_mem _ h2)

theorem completeInQueues_positionsOk (id : String) (now : Nat)
    (l : List (String × List QueuedTask)) (running : List (String × String))
    (hl : ∀ p ∈ l, positionsOk p.2) :
    ∀ p ∈ (completeInQueues id now l running).1, positionsOk p.2 := by
  induction l generalizing running with
  | nil => intro p hp; cases hp
  | cons kq rest ih =>
    obtain ⟨k, q⟩ := kq
    intro p hp
    by_cases hc : containsTask id q = true
    · simp only [completeInQueues, hc, if_true] at hp
      rcases List.mem_cons.mp hp with h1 | h1
      · rw [h1]; exact positionsOk_assignPositions _
      · exact hl _ (List.mem_cons_of_mem _ h1)
    · simp only [completeInQueues, hc, if_false, Bool.false_eq_true] at hp
      rcases List.mem_cons.mp hp with h1 | h1
      · rw [h1]; exact hl _ (List.mem_cons_self _ _)
      · exact ih _ (fun p hp => hl p (List.mem_cons_of_mem _ hp)) p h1

theorem failInQueues_positionsOk (id err : String) (now : Nat)
    (l : List (String × List QueuedTask)) (running : List (String × String))
    (hl : ∀ p ∈ l, positionsOk p.2) :
    ∀ p ∈ (failInQueues id err now l running).1, positionsOk p.2 := by
  induction l generalizing running with
  | nil => intro p hp; cases hp
  | cons kq rest ih =>
    obtain ⟨k, q⟩ := kq
    intro p hp
    by_cases hc : containsTask id q = true
    · simp only [failInQueues, hc, if_true] at hp
      rcases List.mem_cons.mp hp with h1 | h1
      · rw [h1]; exact positionsOk_assignPositions _
      · exact hl _ (List.mem_cons_of_mem _ h1)
    · simp only [failInQueues, hc, if_false, Bool.false_eq_true] at hp
      rcases List.mem_cons.mp hp with h1 | h1
      · rw [h1]; exact hl _ (List.mem_cons_self _ _)
      · exact ih _ (fun p hp => hl p (List.mem_cons_of_mem _ hp)) p h1

theorem cancelInQueues_positionsOk (id : String)
    (l : List (String × List QueuedTask)) (hl : ∀ p ∈ l, positionsOk p.2) :
    ∀ p ∈ (cancelInQueues id l).1, positionsOk p.2 := by
  induction l with
  | nil => intro p hp; cases hp
  | cons kq rest ih =>
    obtain ⟨k, q⟩ := kq
    intro p hp
    cases hf : q.find? (fun t => t.id = id) with
    | some t =>
      by_cases hw : t.status = TaskStatus.waiting
      · simp only [cancelInQueues, hf, hw, if_true] at hp
        rcases List.mem_cons.mp hp with h1 | h1
        · rw [h1]; exact positionsOk_assignPositions _
        · exact hl _ (List.mem_cons_of_mem _ h1)
      · simp only [cancelInQueues, hf, hw, if_false] at hp
        exact hl p hp
    | none =>
      simp only [cancelInQueues, hf] at hp
      rcases List.mem_cons.mp hp with h1 | h1
      · rw [h1]; exact hl _ (List.mem_cons_self _ _)
      · exact ih (fun p hp => hl p (List.mem_cons_of_mem _ hp)) p h1

theorem enqueue_positionsInvariant (st : TQState)
    (hinv : st.positionsInvariant) (botId projectId : String) (msg : Msg)
    (taskId : String) (now : Nat) :
    (st.enqueue botId projectId msg taskId now).positionsInvariant := by
  unfold TQState.enqueue TQState.updatePositions
  simp only [alookup_aset, if_pos rfl, aset_aset]
  intro p hp
  rcases mem_aset _ _ _ hp with h1 | h1
  · rw [h1]; exact positionsOk_assignPositions _
  · exact hinv p h1

theorem alookup_sweepSessions (now : Nat) (l : List (String × Session))
    (k : String) :
    alookup k (sweepSessions now l).1 =
      (alookup k l).map (fun s => (sweepSession now s).1) := by
  induction l with
  | nil => rfl
  | cons hd tl ih =>
    obtain ⟨k', s⟩ := hd
    by_cases h : k' = k
    · simp [sweepSessions, alookup, h]
    · simp [sweepSessions, alookup, h, ih]

theorem mem_sweepSessions_finished (now : Nat) (l : List (String × Session))
    (k : String) (s : Session) (hs : alookup k l = some s) :
    ∀ x ∈ (sweepSession now s).2, x ∈ (sweepSessions now l).2 := by
  induction l with
  | nil => simp [alookup] at hs
  | cons hd tl ih =>
    obtain ⟨k', s'⟩ := hd
    intro x hx
    by_cases h : k' = k
    · rw [alookup, if_pos h] at hs
      injection hs with hs'
      subst hs'
      exact List.mem_append_left _ hx
    · rw [alookup, if_neg h] at hs
      exact List.mem_append_right _ (ih hs x hx)

theorem alookup_mem {α : Type} {k : String} {v : α} {l : List (String × α)}
    (h : alookup k l = some v) : (k, v) ∈ l := by
  induction l with
  | nil => simp [alookup] at h
  | cons hd tl ih =>
    obtain ⟨k', v'⟩ := hd
    by_cases h1 : k' = k
    · rw [alookup, if_pos h1] at h
      injection h with h2
      subst h1
      subst h2
      exact List.mem_cons_self _ _
    · rw [alookup, if_neg h1] at h
      exact List.mem_cons_of_mem _ (ih h)

theorem mem_aremove {α : Type} {x : String × α} (key : String)
    (l : List (String × α)) (hx : x ∈ aremove key l) : x ∈ l := by
  induction l with
  | nil => cases hx
  | cons hd tl ih =>
    obtain ⟨k', v'⟩ := hd
    by_cases h : k' = key
    · rw [aremove, if_pos h] at hx
      exact List.mem_cons_of_mem _ hx
    · rw [aremove, if_neg h] at hx
      rcases List.mem_cons.mp hx with h1 | h1
      · rw [h1]; exact List.mem_cons_self _ _
      · exact List.mem_cons_of_mem _ (ih h1)

theorem mem_sweepSessions_sessions (now : Nat) (l : List (String × Session))
    (p : String × Session) (hp : p ∈ (sweepSessions now l).1) :
    ∃ q ∈ l, p.2 = (sweepSession now q.2).1 := by
  induction l with
  | nil => cases hp
  | cons hd tl ih =>
    obtain ⟨k', s'⟩ := hd
    rcases List.mem_cons.mp hp with h1 | h1
    · exact ⟨(k', s'), List.mem_cons_self _ _, by rw [h1]⟩
    · obtain ⟨q, hq, h2⟩ := ih h1
      exact ⟨q, List.mem_cons_of_mem _ hq, h2⟩

theorem sweepSession_cases (now : Nat) (s : Session) :
    (sweepSession now s).1 = s ∨ ((sweepSession now s).1).state = none := by
  unfold sweepSession
  cases hst : s.state with
  | none => exact Or.inl rfl
  | some st =>
    dsimp only
    by_cases h1 : st.expiresAt ≠ 0 ∧ now > st.expiresAt
    · rw [if_pos h1]
      by_cases h2 : st.status ≠ SessionStatus.idle
      · rw [if_pos h2]
        cases hh : st.executionHandle <;> exact Or.inr rfl
      · rw [if_neg h2]; exact Or.inl rfl
    · rw [if_neg h1]; exact Or.inl rfl

theorem goodSession_of_inv {sm : SMState} (hinv : handleStatusInv sm)
    {key : String} {s : Session} (hs : alookup key sm.sessions = some s) :
    goodSession s :=
  hinv (key, s) (alookup_mem hs)

theorem inv_aset {sm : SMState} (hinv : handleStatusInv sm) (key : String)
    {s' : Session} (hgood : goodSession s') :
    ∀ p ∈ aset key s' sm.sessions, goodSession p.2 := by
  intro p hp
  rcases mem_aset _ _ _ hp with h1 | h1
  · rw [h1]; exact hgood
  · exact hinv p h1

theorem inv_setStatus (sm : SMState) (key : String) (status : SessionStatus)
    (hne : status ≠ SessionStatus.idle) (hinv : handleStatusInv sm) :
    handleStatusInv (sm.setStatus key status) := by
  unfold SMState.setStatus
  cases hs : alookup key sm.sessions with
  | none => exact hinv
  | some s =>
    dsimp only
    refine inv_aset hinv key ?_
    intro st hst _
    injection hst with h2
    rw [← h2]
    exact hne

theorem inv_setState_startExec (sm : SMState) (key taskId chatId : String)
    (h : Handle) (now : Nat) (hinv : handleStatusInv sm) :
    handleStatusInv (sm.setState key (startExecPartial taskId h chatId now)) := by
  unfold SMState.setState
  cases hs : alookup key sm.sessions with
  | none => exact hinv
  | some s =>
    dsimp only
    refine inv_aset hinv key ?_
    intro st hst _
    injection hst with h2
    rw [← h2]
    simp [mergeSessionState, startExecPartial]

theorem inv_setState_frame (sm : SMState) (key : String)
    (p : PartialSessionState) (hps : p.status = none)
    (hph : p.executionHandle = none) (hinv : handleStatusInv sm) :
    handleStatusInv (sm.setState key p) := by
  unfold SMState.setState
  cases hs : alookup key sm.sessions with
  | none => exact hinv
  | some s =>
    dsimp only
    refine inv_aset hinv key ?_
    intro st hst hsome
    injection hst with h2
    subst h2
    simp only [mergeSessionState, hps, hph, Option.getD_none] at hsome ⊢
    cases hs0 : s.state with
    | none =>
      rw [hs0] at hsome
      simp [defaultSessionState] at hsome
    | some st1 =>
      rw [hs0] at hsome
      simp only [Option.getD_some] at hsome ⊢
      exact goodSession_of_inv hinv hs st1 hs0 hsome

theorem inv_inputRequiredOp (sm : SMState) (key inputType prompt : String)
    (options : List String) (now : Nat) (hinv : handleStatusInv sm) :
    handleStatusInv (inputRequiredOp sm key inputType prompt options now) := by
  unfold inputRequiredOp
  refine inv_setState_frame _ _ _ rfl rfl (inv_setStatus _ _ _ ?_ hinv)
  split
  · decide
  · split <;> decide

theorem inv_getOrCreate (sm : SMState)
    (botId userId projectId claudeSessionId : String) (now : Nat)
    (hinv : handleStatusInv sm) :
    handleStatusInv
      (sm.getOrCreateSession botId userId projectId claudeSessionId now) := by
  unfold SMState.getOrCreateSession
  dsimp only
  cases hs : alookup (sessionKeyOf botId userId) sm.sessions with
  | none =>
    dsimp only
    refine inv_aset hinv _ ?_
    intro st hst
    exact Option.noConfusion hst
  | some s =>
    dsimp only
    by_cases hp : s.projectId ≠ projectId
    · rw [if_pos hp]
      refine inv_aset hinv _ ?_
      intro st hst
      exact Option.noConfusion hst
    · rw [if_neg hp]
      refine inv_aset hinv _ ?_
      intro st hst hsome
      exact goodSession_of_inv hinv hs st hst hsome

theorem inv_deleteSession (sm : SMState) (botId userId : String)
    (hinv : handleStatusInv sm) : handleStatusInv (sm.deleteSession botId userId) :=
  fun p hp => hinv p (mem_aremove _ _ hp)

theorem inv_clearState (sm : SMState) (key : String)
    (hinv : handleStatusInv sm) : handleStatusInv (sm.clearState key) := by
  unfold SMState.clearState
  cases hs : alookup key sm.sessions with
  | none => exact hinv
  | some s =>
    dsimp only
    refine inv_aset hinv key ?_
    intro st hst
    exact Option.noConfusion hst

theorem inv_sweep (sm : SMState) (now : Nat) (hinv : handleStatusInv sm) :
    handleStatusInv ((sm.timeoutSweep now).1) := by
  intro p hp
  obtain ⟨q, hq, h2⟩ := mem_sweepSessions_sessions now sm.sessions p hp
  rcases sweepSession_cases now q.2 with h3 | h3
  · rw [h2, h3]; exact hinv q hq
  · rw [h2]
    intro st hst
    rw [h3] at hst
    exact Option.noConfusion hst

theorem find?_map_setFail (id err : String) (now : Nat) (q : List QueuedTask)
    (t : QueuedTask) (hf : q.find? (fun t => t.id = id) = some t) :
    (q.map fun u =>
        if u.id = id then
          { u with status := TaskStatus.failed, completedAt := some now,
                   error := some err }
        else u).find? (fun t => t.id = id) =
      some { t with status := TaskStatus.failed, completedAt := some now,
                    error := some err } := by
  induction q with
  | nil => simp at hf
  | cons u us ih =>
    by_cases h : u.id = id
    · rw [List.find?_cons_of_pos _ (by simpa using h)] at hf
      injection hf with hf'
      subst hf'
      rw [List.map_cons, if_pos h]
      exact List.find?_cons_of_pos _ (by simpa using h)
    · rw [List.find?_cons_of_neg _ (by simpa using h)] at hf
      rw [List.map_cons, if_neg h,
        List.find?_cons_of_neg _ (by simpa using h)]
      exact ih hf

theorem find?_assignPositions_of_not_waiting (id : String) (p : Nat)
    (q : List QueuedTask) (t : QueuedTask)
    (hf : q.find? (fun t => t.id = id) = some t)
    (hnw : t.status ≠ TaskStatus.waiting) :
    (assignPositions p q).find? (fun t => t.id = id) = some t := by
  induction q generalizing p with
  | nil => simp at hf
  | cons u us ih =>
    by_cases hid : u.id = id
    · rw [List.find?_cons_of_pos _ (by simpa using hid)] at hf
      injection hf with hf'
      subst hf'
      unfold assignPositions
      rw [if_neg hnw]
      exact List.find?_cons_of_pos _ (by simpa using hid)
    · rw [List.find?_cons_of_neg _ (by simpa using hid)] at hf
      unfold assignPositions
      by_cases hw : u.status = TaskStatus.waiting
      · rw [if_pos hw, List.find?_cons_of_neg _ (by simpa using hid)]
        exact ih _ hf
      · rw [if_neg hw, List.find?_cons_of_neg _ (by simpa using hid)]
        exact ih _ hf

theorem findInQueues_failInQueues (id err : String) (now : Nat)
    (l : List (String × List QueuedTask)) (running : List (String × String))
    (t : QueuedTask) (hf : findInQueues id l = some t) :
    findInQueues id (failInQueues id err now l running).1 =
      some { t with status := TaskStatus.failed, completedAt := some now,
                    error := some err } := by
  induction l generalizing running with
  | nil => simp [findInQueues] at hf
  | cons kq rest ih =>
    obtain ⟨k, q⟩ := kq
    cases hq : q.find? (fun t => t.id = id) with
    | some t0 =>
      have hc : containsTask id q = true := by
        unfold containsTask
        rw [List.any_eq_true]
        refine ⟨t0, List.mem_of_find?_eq_some hq, ?_⟩
        have := List.find?_some hq
        simpa using this
      unfold findInQueues at hf
      rw [hq] at hf
      injection hf with hf'
      subst hf'
      simp only [failInQueues, hc, if_true]
      unfold findInQueues
      rw [find?_assignPositions_of_not_waiting id 0 _ _
        (find?_map_setFail id err now q t0 hq) (by simp)]
    | none =>
      have hc : ¬ (containsTask id q = true) := by
        unfold containsTask
        rw [List.any_eq_true]
        rintro ⟨x, hx, hpx⟩
        have := List.find?_eq_none.mp hq x hx
        exact this hpx
      unfold findInQueues at hf
      rw [hq] at hf
      simp only [failInQueues]
      rw [if_neg hc]
      unfold findInQueues
      rw [hq]
      exact ih running hf

theorem markFirstWaiting_find?_some (now : Nat) (id : String)
    (q : List QueuedTask) : ∀ (q' : List QueuedTask) (w t : QueuedTask),
    markFirstWaiting now q = some (w, q') →
    q.find? (fun t => t.id = id) = some t →
    t.status ≠ TaskStatus.waiting →
    q'.find? (fun t => t.id = id) = some t := by
  induction q with
  | nil => intro q' w t hm _ _; simp [markFirstWaiting] at hm
  | cons u us ih =>
    intro q' w t hm hf hnw
    by_cases hw : u.status = TaskStatus.waiting
    · rw [markFirstWaiting, if_pos hw] at hm
      injection hm with hm'
      have hq' := congrArg Prod.snd hm'
      dsimp at hq'
      subst hq'
      by_cases hid : u.id = id
      · rw [List.find?_cons_of_pos _ (by simpa using hid)] at hf
        injection hf with hf'
        subst hf'
        exact absurd hw hnw
      · rw [List.find?_cons_of_neg _ (by simpa using hid)] at hf
        rw [List.find?_cons_of_neg _ (by simpa using hid)]
        exact hf
    · rw [markFirstWaiting, if_neg hw] at hm
      cases hmw : markFirstWaiting now us with
      | none => rw [hmw] at hm; simp at hm
      | some pr =>
        obtain ⟨r, us'⟩ := pr
        rw [hmw] at hm
        injection hm with hm'
        have hq' := congrArg Prod.snd hm'
        dsimp at hq'
        subst hq'
        by_cases hid : u.id = id
        · rw [List.find?_cons_of_pos _ (by simpa using hid)] at hf ⊢
          exact hf
        · rw [List.find?_cons_of_neg _ (by simpa using hid)] at hf ⊢
          exact ih us' r t hmw hf hnw

theorem markFirstWaiting_find?_none (now : Nat) (id : String)
    (q : List QueuedTask) : ∀ (q' : List QueuedTask) (w : QueuedTask),
    markFirstWaiting now q = some (w, q') →
    q.find? (fun t => t.id = id) = none →
    q'.find? (fun t => t.id = id) = none := by
  induction q with
  | nil => intro q' w hm _; simp [markFirstWaiting] at hm
  | cons u us ih =>
    intro q' w hm hf
    have hnotid : ¬ u.id = id := by
      intro hid
      have := List.find?_eq_none.mp hf u (List.mem_cons_self _ _)
      exact this (by simpa using hid)
    rw [List.find?_cons_of_neg _ (by simpa using hnotid)] at hf
    by_cases hw : u.status = TaskStatus.waiting
    · rw [markFirstWaiting, if_pos hw] at hm
      injection hm with hm'
      have hq' := congrArg Prod.snd hm'
      dsimp at hq'
      subst hq'
      rw [List.find?_cons_of_neg _ (by simpa using hnotid)]
      exact hf
    · rw [markFirstWaiting, if_neg hw] at hm
      cases hmw : markFirstWaiting now us with
      | none => rw [hmw] at hm; simp at hm
      | some pr =>
        obtain ⟨r, us'⟩ := pr
        rw [hmw] at hm
        injection hm with hm'
        have hq' := congrArg Prod.snd hm'
        dsimp at hq'
        subst hq'
        rw [List.find?_cons_of_neg _ (by simpa using hnotid)]
        exact ih us' r hmw hf

theorem findInQueues_aset_mark (id : String) (l : List (String × List QueuedTask))
    (key : String) (q q' : List QueuedTask) (w : QueuedTask) (now : Nat)
    (hl : alookup key l = some q)
    (hm : markFirstWaiting now q = some (w, q'))
    (t : QueuedTask) (hf : findInQueues id l = some t)
    (hnw : t.status ≠ TaskStatus.waiting) :
    findInQueues id (aset key q' l) = some t := by
  induction l with
  | nil => simp [alookup] at hl
  | cons kq rest ih =>
    obtain ⟨k0, q0⟩ := kq
    by_cases hk : k0 = key
    · rw [alookup, if_pos hk] at hl
      injection hl with hl'
      rw [aset, if_pos hk]
      unfold findInQueues at hf ⊢
      rw [hl'] at hf
      cases hq0 : q.find? (fun t => t.id = id) with
      | some t0 =>
        rw [hq0] at hf
        injection hf with hf'
        subst hf'
        rw [markFirstWaiting_find?_some now id q q' w t0 hm hq0 hnw]
      | none =>
        rw [hq0] at hf
        rw [markFirstWaiting_find?_none now id q q' w hm hq0]
        exact hf
    · rw [alookup, if_neg hk] at hl
      rw [aset, if_neg hk]
      unfold findInQueues at hf ⊢
      cases hq0 : q0.find? (fun t => t.id = id) with
      | some t0 => rw [hq0] at hf; exact hf
      | none => rw [hq0] at hf; exact ih hl hf

theorem getTask_getNext_of_not_waiting (st : TQState) (botId projectId : String)
    (now : Nat) (id : String) (t : QueuedTask)
    (hf : st.getTask id = some t) (hnw : t.status ≠ TaskStatus.waiting) :
    TQState.getTask (st.getNext botId projectId now).2 id = some t := by
  unfold TQState.getNext
  dsimp only
  cases hq : alookup (getQueueKey botId projectId) st.queues with
  | none => exact hf
  | some q =>
    dsimp only
    cases hm : markFirstWaiting now q with
    | none => exact hf
    | some pr =>
      obtain ⟨w, q'⟩ := pr
      try dsimp only
      exact findInQueues_aset_mark id st.queues _ q q' w now hq hm t hf hnw

theorem getLastD_concat (a d : Nat) (l : List Nat) : (l ++ [a]).getLastD d = a := by
  simp [List.getLastD_eq_getLast?, List.getLast?_concat]

theorem spacedBy_concat (g a : Nat) (l : List Nat) (hs : spacedBy g l)
    (ha : l.getLastD 0 + g ≤ a) : spacedBy g (l ++ [a]) := by
  induction l with
  | nil => simp [spacedBy]
  | cons x xs ih =>
    cases xs with
    | nil =>
      refine ⟨?_, ?_⟩
      · simpa [List.getLastD_eq_getLast?] using ha
      · simp [spacedBy]
    | cons y ys =>
      obtain ⟨h1, h2⟩ := hs
      refine ⟨h1, ?_⟩
      apply ih h2
      simpa [List.getLastD_eq_getLast?, List.getLast?_cons_cons] using ha

theorem stepThrottle_inv (ts : ThrottleState) (clock : Nat) (op : ThrottleOp)
    (hinv : throttleInv ts clock) (ht : clock ≤ op.time) :
    throttleInv (stepThrottle ts op) op.time := by
  obtain ⟨hA, hB, hC, hD⟩ := hinv
  cases op with
  | update now payload =>
    have hnow : ts.lastUpdateTime ≤ now := le_trans hD ht
    unfold stepThrottle updateCardOp
    dsimp only
    by_cases hfast : now - ts.lastUpdateTime < minUpdateInterval
    · rw [if_pos hfast]
      refine ⟨hA, hB, ?_, hnow⟩
      intro d hd
      injection hd with hd'
      dsimp only
      omega
    · rw [if_neg hfast]
      unfold doUpdateCard
      dsimp only
      have hgap : ts.lastUpdateTime + minUpdateInterval ≤ now := by
        unfold minUpdateInterval at hfast ⊢
        omega
      refine ⟨?_, ?_, ?_, le_refl now⟩
      · rw [List.map_append]
        exact spacedBy_concat _ _ _ hA (by rw [hB]; exact hgap)
      · rw [List.map_append]
        exact getLastD_concat _ _ _
      · intro d hd
        exact Option.noConfusion hd
  | fire now =>
    have hnow : ts.lastUpdateTime ≤ now := le_trans hD ht
    unfold stepThrottle
    dsimp only
    cases hp : ts.pendingTimer with
    | none =>
      refine ⟨hA, hB, ?_, hnow⟩
      intro d hd
      first
      | exact Option.noConfusion hd
      | exact hC d hd
    | some d =>
      dsimp only
      by_cases hle : d ≤ now
      · rw [if_pos hle]
        unfold timerFire doUpdateCard
        dsimp only
        cases hc : ts.pendingCardContent with
        | none =>
          refine ⟨hA, hB, ?_, hnow⟩
          intro d' hd'
          exact Option.noConfusion hd'
        | some payload =>
          have hgap : ts.lastUpdateTime + minUpdateInterval ≤ now := by
            have := hC d hp
            omega
          refine ⟨?_, ?_, ?_, le_refl now⟩
          · rw [List.map_append]
            exact spacedBy_concat _ _ _ hA (by rw [hB]; exact hgap)
          · rw [List.map_append]
            exact getLastD_concat _ _ _
          · intro d' hd'
            exact Option.noConfusion hd'
      · rw [if_neg hle]
        refine ⟨hA, hB, ?_, hnow⟩
        intro d' hd'
        exact hC d' hd'

theorem runThrottle_inv (ops : List ThrottleOp) (ts : ThrottleState)
    (clock : Nat) (hinv : throttleInv ts clock) (hw : wellTimed clock ops) :
    spacedBy minUpdateInterval ((runThrottle ts ops).issued.map Prod.fst) := by
  induction ops generalizing ts clock with
  | nil => exact hinv.1
  | cons op ops ih =>
    obtain ⟨h1, h2⟩ := hw
    exact ih (stepThrottle ts op) op.time (stepThrottle_inv ts clock op hinv h1) h2

/-! Claim theorems. -/

/-- C1 (counterexample): the Task Queue does not return null from a second
`getNext` while T1 is running — in Scenario A's trace, after T1 runs and T2 is
enqueued, `getNext` returns T2 and two tasks for the key then have status
`running`. -/
theorem C1_counterexample :
    (scA3.getNext "b" "p" 3).1 ≠ none ∧
    runningStatusCount (scA3.getNext "b" "p" 3).2 "b" "p" = 2 := by decide

/-- C1 (amended): in Scenario A's trace, the first `getNext` returns T1 with
status `running` and records it in the running marker; `getNext` does not
consult that marker, so the second `getNext` returns T2 (not null) and marks
it running as well, leaving two tasks with status `running` and the marker
overwritten to T2; serialization therefore rests on the caller checking
`isRunning` before dispatch, and under that discipline `complete(T1.id)`
followed by `getNext` yields T2. -/
theorem C1_serialization_caller_enforced :
    ((scA1.getNext "b" "p" 1).1.map QueuedTask.id = some "t1") ∧
    ((scA1.getNext "b" "p" 1).1.map QueuedTask.status = some TaskStatus.running) ∧
    scA2.isRunning "b" "p" = true ∧
    ((scA3.getNext "b" "p" 3).1.map QueuedTask.id = some "t2") ∧
    ((scA3.getNext "b" "p" 3).1.map QueuedTask.status = some TaskStatus.running) ∧
    runningStatusCount (scA3.getNext "b" "p" 3).2 "b" "p" = 2 ∧
    alookup "b:p" ((scA3.getNext "b" "p" 3).2).runningTasks = some "t2" ∧
    ((scA4.getNext "b" "p" 5).1.map QueuedTask.id = some "t2") := by decide

/-- C2: `cancel(taskId)` returns true and removes the task exactly when the
task's status is `waiting` at call time; in every other case (running,
completed, failed, or unknown id) it returns false and the queue state is
completely unchanged. Task ids are assumed unique (the source generates them
from timestamp and randomness); the uniqueness hypothesis is only needed for
the removal conjunct. -/
theorem C2_cancel_iff_waiting (st : TQState) (taskId : String)
    (hocc : taskOccurrences st taskId ≤ 1) :
    ((st.cancel taskId).2 = true ↔
       ∃ t, st.getTask taskId = some t ∧ t.status = TaskStatus.waiting) ∧
    ((st.cancel taskId).2 = false → (st.cancel taskId).1 = st) ∧
    ((st.cancel taskId).2 = true →
       TQState.getTask (st.cancel taskId).1 taskId = none) := by
  refine ⟨?_, ?_, ?_⟩
  · exact cancelInQueues_true_iff taskId st.queues
  · intro hfalse
    have h1 : (cancelInQueues taskId st.queues).1 = st.queues :=
      cancelInQueues_false_frame taskId st.queues hfalse
    show ({ st with queues := (cancelInQueues taskId st.queues).1 } : TQState) = st
    rw [h1]
  · intro htrue
    exact cancelInQueues_removes taskId st.queues hocc htrue

/-- C2 witness: cancelling the waiting T2 of Scenario A's queue succeeds and
removes it. -/
theorem C2_cancel_iff_waiting_witness :
    ((scA3.cancel "t2").2 = true ↔
       ∃ t, scA3.getTask "t2" = some t ∧ t.status = TaskStatus.waiting) ∧
    ((scA3.cancel "t2").2 = false → (scA3.cancel "t2").1 = scA3) ∧
    ((scA3.cancel "t2").2 = true →
       TQState.getTask (scA3.cancel "t2").1 "t2" = none) :=
  C2_cancel_iff_waiting scA3 "t2" (by decide)

/-- C3 (counterexample): `getNext` recomputes no positions, so right after it
runs the remaining waiting task of the key still carries position 1 and the
contiguity invariant fails. -/
theorem C3_counterexample :
    waitingPositions ((alookup "b:p" scPos.queues).getD []) = [some 1] ∧
    ¬ TQState.positionsInvariant scPos := by
  constructor
  · decide
  · intro h
    have h1 := h ("b:p", (alookup "b:p" scPos.queues).getD []) (by decide)
    revert h1
    decide

/-- C3 (amended): after `enqueue`, `cancel`, `complete` and `fail` — the
operations that recompute positions — the position fields of each key's
waiting tasks form exactly the contiguous sequence `0, 1, ..., n-1` in queue
(FIFO) order; `getNext` is excluded because it recomputes nothing, leaving
the remaining waiting tasks' positions shifted until the next structural
change. -/
theorem C3_positions_recomputed (st : TQState) (hinv : st.positionsInvariant)
    (botId projectId : String) (msg : Msg) (newId tid err : String) (now : Nat) :
    (st.enqueue botId projectId msg newId now).positionsInvariant ∧
    ((st.cancel tid).1).positionsInvariant ∧
    (st.complete tid now).positionsInvariant ∧
    (st.fail tid err now).positionsInvariant := by
  refine ⟨enqueue_positionsInvariant st hinv botId projectId msg newId now,
    ?_, ?_, ?_⟩
  · exact cancelInQueues_positionsOk tid st.queues hinv
  · exact completeInQueues_positionsOk tid now st.queues st.runningTasks hinv
  · exact failInQueues_positionsOk tid err now st.queues st.runningTasks hinv

/-- C3 witness: the recomputing operations applied to Scenario A's queue. -/
theorem C3_positions_recomputed_witness :
    (scA3.enqueue "b" "p" exMsg1 "t9" 7).positionsInvariant ∧
    ((scA3.cancel "t2").1).positionsInvariant ∧
    (scA3.complete "t2" 7).positionsInvariant ∧
    (scA3.fail "t2" "E" 7).positionsInvariant :=
  C3_positions_recomputed scA3 (by decide) "b" "p" exMsg1 "t9" "t2" "E" 7

/-- C4: evaluating the bridge on a non-command reply while the session is
`waiting_input` with a stored handle — the text is forwarded via the handle's
reply operation, the status returns to `executing`, the user is acknowledged
and nothing is enqueued, but no resumption of the outbound drain is triggered
(the waiting-state path ends inside the command handler, which never calls
`resumeExecution`). -/
theorem C4_reply_not_resumed :
    replyRes.effects = [Effect.sendMessageTo exHandle "hi",
                        Effect.sendText "c1" ackText] ∧
    (SMState.getState replyRes.sm "b:u1").map SessionState.status =
      some SessionStatus.executing ∧
    Effect.resumeDrain exHandle ∉ replyRes.effects ∧
    replyRes.tq = tq0 := by decide

/-- C6 (amended): one run of the interactive-timeout sweep — every session
whose interactive state has a non-idle status and a nonzero `expiresAt`
strictly in the past has `finish()` invoked on its stored execution handle
(the handle's `finishThrows` flag never affects the outcome, mirroring the
try/catch swallow) and its interactive state becomes absent; sessions with an
idle status, an unexpired or zero `expiresAt`, or no interactive state are
left unchanged. -/
theorem C6_timeout_sweep (sm : SMState) (now : Nat) (k : String) (s : Session)
    (hs : alookup k sm.sessions = some s) :
    (∀ st h, s.state = some st → st.expiresAt ≠ 0 → st.expiresAt < now →
       st.status ≠ SessionStatus.idle → st.executionHandle = some h →
       SMState.getState (sm.timeoutSweep now).1 k = none ∧
       h ∈ (sm.timeoutSweep now).2) ∧
    (∀ st, s.state = some st →
       (st.expiresAt = 0 ∨ now ≤ st.expiresAt ∨ st.status = SessionStatus.idle) →
       alookup k ((sm.timeoutSweep now).1).sessions = some s) ∧
    (s.state = none → alookup k ((sm.timeoutSweep now).1).sessions = some s) := by
  have hl := alookup_sweepSessions now sm.sessions k
  refine ⟨?_, ?_, ?_⟩
  · intro st h hst hne hlt hidle hh
    have hsw : sweepSession now s = ({ s with state := none }, [h]) := by
      unfold sweepSession
      rw [hst]
      dsimp only
      rw [if_pos ⟨hne, hlt⟩, if_pos hidle, hh]
    constructor
    · show ((alookup k (sweepSessions now sm.sessions).1).bind Session.state) = none
      rw [hl, hs]
      simp [hsw]
    · show h ∈ (sweepSessions now sm.sessions).2
      exact mem_sweepSessions_finished now sm.sessions k s hs h
        (by rw [hsw]; exact List.mem_singleton.mpr rfl)
  · intro st hst hkeep
    have hsw : sweepSession now s = (s, []) := by
      unfold sweepSession
      rw [hst]
      dsimp only
      rcases hkeep with h0 | h0 | h0
      · rw [if_neg (fun hc => hc.1 h0)]
      · rw [if_neg (fun hc => absurd hc.2 (not_lt.mpr h0))]
      · by_cases hA : st.expiresAt ≠ 0 ∧ now > st.expiresAt
        · rw [if_pos hA, if_neg (fun hi => hi h0)]
        · rw [if_neg hA]
    show alookup k (sweepSessions now sm.sessions).1 = some s
    rw [hl, hs]
    simp [hsw]
  · intro hst
    have hsw : sweepSession now s = (s, []) := by
      unfold sweepSession
      rw [hst]
    show alookup k (sweepSessions now sm.sessions).1 = some s
    rw [hl, hs]
    simp [hsw]

/-- C6 witness: the sweep clears the expired executing session whose handle's
`finish()` throws, and that handle is among the finished ones. -/
theorem C6_timeout_sweep_witness :
    SMState.getState (expiredSM.timeoutSweep 2000000).1 "b:u1" = none ∧
    throwingHandle ∈ (expiredSM.timeoutSweep 2000000).2 :=
  (C6_timeout_sweep expiredSM 2000000 "b:u1" expiredSession (by decide)).1
    expiredState throwingHandle rfl (by decide) (by decide) (by decide) rfl

/-- C6 (counterexample): a non-idle interactive state whose `expiresAt` is the
lazy-init default 0 — numerically in the past at instant 1000 — is skipped by
the sweep's truthiness test on `expiresAt`: no `finish()` is invoked and the
state stays present. -/
theorem C6_counterexample :
    zeroExpiryState.expiresAt < 1000 ∧
    zeroExpiryState.status ≠ SessionStatus.idle ∧
    (zeroExpirySM.timeoutSweep 1000).2 = [] ∧
    SMState.getState (zeroExpirySM.timeoutSweep 1000).1 "b:u1" =
      some zeroExpiryState := by decide

/-- C7 (counterexample): a reachable session-store state in which the status
is `waiting_input` with no execution handle — after the timeout sweep clears
an executing session mid-drain, a subsequent `input_required` event lazily
re-initializes the interactive state without a handle. -/
theorem C7_counterexample :
    SMReachable trace4 ∧
    (SMState.getState trace4 "b:u1").map SessionState.status =
      some SessionStatus.waiting_input ∧
    ((SMState.getState trace4 "b:u1").bind SessionState.executionHandle) = none := by
  refine ⟨?_, by decide, by decide⟩
  exact SMReachable.step
    (SMReachable.step
      (SMReachable.step
        (SMReachable.step SMReachable.init
          (SMStep.getOrCreate _ "b" "u1" "p" "s1" 0))
        (SMStep.startExec _ "b:u1" "t1" "c1" exHandle 0))
      (SMStep.sweep _ 2000000))
    (SMStep.inputRequired _ "b:u1" "text" "which file?" [] 2000001)

/-- C5: when a recognized command arrives while the session's interactive
status is `waiting_input` or `waiting_confirm` and a handle is stored, the
handle's `finish()` is called, the interactive state is cleared, and the
message is dispatched to the command subsystem instead of being sent to the
paused execution as a reply; the task queue is untouched. -/
theorem C5_command_cancels_wait (bot : Bot) (sm : SMState) (tq : TQState)
    (msg : Msg) (taskId : String) (now : Nat) (session : Session)
    (st : SessionState) (h : Handle) (cmd : Command)
    (hs : sm.getSession bot.id msg.userId = some session)
    (hst : session.state = some st)
    (hw : st.status = SessionStatus.waiting_input ∨
          st.status = SessionStatus.waiting_confirm)
    (hh : st.executionHandle = some h)
    (hc : parseCommand msg.text = some cmd) :
    (messageBridgeHandle bot sm tq msg taskId now).effects =
      [Effect.finishHandle h, Effect.execCommand cmd] ∧
    SMState.getState (messageBridgeHandle bot sm tq msg taskId now).sm
      (sessionKeyOf bot.id msg.userId) = none ∧
    (messageBridgeHandle bot sm tq msg taskId now).tq = tq := by
  have hch : commandHandlerHandle bot sm msg =
      { sm := sm.clearState (sessionKeyOf bot.id msg.userId),
        effects := [Effect.finishHandle h, Effect.execCommand cmd],
        handled := true } := by
    unfold commandHandlerHandle
    simp only [hs, hst]
    rw [if_pos hw]
    simp only [hc, hh]
    rfl
  simp [messageBridgeHandle, hch, getState_clearState]

/-- C5 witness: the `/help` command while `u1` is paused on an input request. -/
theorem C5_command_cancels_wait_witness :
    (messageBridgeHandle exBot waitingSM tq0 exCmdMsg "tX" 50).effects =
      [Effect.finishHandle exHandle,
       Effect.execCommand { type := CommandType.help, args := [] }] ∧
    SMState.getState (messageBridgeHandle exBot waitingSM tq0 exCmdMsg "tX" 50).sm
      (sessionKeyOf exBot.id exCmdMsg.userId) = none ∧
    (messageBridgeHandle exBot waitingSM tq0 exCmdMsg "tX" 50).tq = tq0 :=
  C5_command_cancels_wait exBot waitingSM tq0 exCmdMsg "tX" 50 waitingSession
    waitingState exHandle { type := CommandType.help, args := [] }
    (by decide) (by decide) (Or.inl (by decide)) (by decide) (by decide)

/-- C7 (amended): in every reachable state of the session store, a session's
interactive state with a non-null `executionHandle` has status in
`{executing, waiting_input, waiting_confirm}`; the converse direction of the
claimed iff fails (see the counterexample: a waiting status with a null
handle is reachable after the timeout sweep clears state mid-drain). -/
theorem C7_handle_implies_active (sm : SMState) (hr : SMReachable sm) :
    handleStatusInv sm := by
  induction hr with
  | init => intro p hp; cases hp
  | step h1 h2 ih =>
    cases h2 with
    | getOrCreate botId userId projectId claudeSessionId now =>
      exact inv_getOrCreate _ botId userId projectId claudeSessionId now ih
    | deleteSession botId userId => exact inv_deleteSession _ botId userId ih
    | startExec key taskId chatId h now =>
      exact inv_setState_startExec _ key taskId chatId h now ih
    | inputRequired key inputType prompt options now =>
      exact inv_inputRequiredOp _ key inputType prompt options now ih
    | reply key hguard =>
      exact inv_setStatus _ key SessionStatus.executing (by decide) ih
    | clearState key => exact inv_clearState _ key ih
    | sweep now => exact inv_sweep _ now ih

/-- C7 witness: the invariant at the reachable state holding a freshly stored
execution handle. -/
theorem C7_handle_implies_active_witness : handleStatusInv trace2 :=
  C7_handle_implies_active trace2
    (SMReachable.step
      (SMReachable.step SMReachable.init (SMStep.getOrCreate _ "b" "u1" "p" "s1" 0))
      (SMStep.startExec _ "b:u1" "t1" "c1" exHandle 0))

/-- C8 (counterexample): an error during resume reaches `handleExecutionError`
with a `null` task, so the session's running task T1 is left with status
`running` in the queue instead of being marked failed. -/
theorem C8_counterexample :
    (execSession.state.map SessionState.currentTaskId) = some "t1" ∧
    (TQState.getTask resumeErrRes.2.1 "t1").map QueuedTask.status =
      some TaskStatus.running ∧
    (TQState.getTask resumeErrRes.2.1 "t1").map QueuedTask.status ≠
      some TaskStatus.failed := by decide

/-- C8 (amended): on an error during task execution, `handleExecutionError`
clears the session's interactive state, marks the task `failed` in the queue
with the error detail, sends or updates an error card, and still pulls the
next waiting task of the workspace (starting it when one exists); on an error
during resume, the catch clause passes a `null` task, so everything happens
except the fail-marking — the queue is only touched by the next-task pull. -/
theorem C8_error_advances_queue (sm : SMState) (tq : TQState) (key : String)
    (t : QueuedTask) (chatId err botId projectId cardId : String) (now : Nat)
    (ht : tq.getTask t.id = some t) :
    (TQState.getTask
        (handleExecutionError sm tq key (some t) chatId err botId projectId
          cardId now).2.1 t.id =
      some { t with status := TaskStatus.failed, completedAt := some now,
                    error := some err }) ∧
    SMState.getState
        (handleExecutionError sm tq key (some t) chatId err botId projectId
          cardId now).1 key = none ∧
    ((if cardId = "" then Effect.sendCard chatId "error"
      else Effect.updateCardFx chatId "error") ∈
      (handleExecutionError sm tq key (some t) chatId err botId projectId
        cardId now).2.2) ∧
    (∀ t', ((tq.fail t.id err now).getNext botId projectId (now + 1000)).1 =
        some t' →
      Effect.startTask t'.id ∈
        (handleExecutionError sm tq key (some t) chatId err botId projectId
          cardId now).2.2) ∧
    ((handleExecutionError sm tq key none chatId err botId projectId
        cardId now).2.1 = (tq.getNext botId projectId (now + 1000)).2) ∧
    SMState.getState
        (handleExecutionError sm tq key none chatId err botId projectId
          cardId now).1 key = none := by
  have hfail : TQState.getTask (tq.fail t.id err now) t.id =
      some { t with status := TaskStatus.failed, completedAt := some now,
                    error := some err } :=
    findInQueues_failInQueues t.id err now tq.queues tq.runningTasks t ht
  refine ⟨?_, ?_, ?_, ?_, rfl, ?_⟩
  · exact getTask_getNext_of_not_waiting (tq.fail t.id err now) botId projectId
      (now + 1000) t.id _ hfail (by simp)
  · exact getState_clearState sm key
  · unfold handleExecutionError
    by_cases hc : cardId = ""
    · simp [hc]
    · simp [hc]
  · intro t' hnext
    unfold handleExecutionError
    dsimp only
    rw [hnext]
    simp
  · exact getState_clearState sm key

/-- C8 witness: an execution error on Scenario A's queue while T1 runs — T1 is
marked failed with the detail. -/
theorem C8_error_advances_queue_witness :
    TQState.getTask
        (handleExecutionError execSM scA3 "b:u1" (some scT1run) "c1" "boom"
          "b" "p" "card1" 100).2.1 scT1run.id =
      some { scT1run with status := TaskStatus.failed, completedAt := some 100,
                          error := some "boom" } :=
  (C8_error_advances_queue execSM scA3 "b:u1" scT1run "c1" "boom" "b" "p"
    "card1" 100 (by decide)).1

/-- C9 (counterexample): with a progress payload coalesced behind a pending
trailing timer, the pre-final-card step cancels the timer but never flushes
the payload — the set of issued progress updates is unchanged. -/
theorem C9_counterexample :
    pendingTS.pendingTimer.isSome = true ∧
    pendingTS.pendingCardContent = some 7 ∧
    (finalizeBeforeResult pendingTS).pendingTimer = none ∧
    (finalizeBeforeResult pendingTS).issued = pendingTS.issued := by decide

/-- C9 (amended): progress-card updates are coalesced — along any well-timed
event sequence from a fresh task's throttle state, issued updates are at
least the minimum interval (1s) apart; updates requested within the interval
replace the single pending payload and (re)schedule the trailing timer
without issuing anything; before the final result card is sent, any pending
timer is cancelled and the pending payload is discarded (not flushed), and a
cancelled timer can never fire afterwards, so no stale progress update can
follow the final card. -/
theorem C9_throttle (ops : List ThrottleOp) (hops : wellTimed 0 ops)
    (ts : ThrottleState) (now payload : Nat)
    (hfast : now - ts.lastUpdateTime < minUpdateInterval) :
    spacedBy minUpdateInterval
      ((runThrottle initialThrottle ops).issued.map Prod.fst) ∧
    ((updateCardOp ts now payload).issued = ts.issued ∧
     (updateCardOp ts now payload).pendingCardContent = some payload ∧
     (updateCardOp ts now payload).pendingTimer =
       some (ts.lastUpdateTime + minUpdateInterval)) ∧
    ((finalizeBeforeResult ts).pendingTimer = none ∧
     (finalizeBeforeResult ts).issued = ts.issued ∧
     (∀ m, stepThrottle (finalizeBeforeResult ts) (ThrottleOp.fire m) =
        finalizeBeforeResult ts)) := by
  refine ⟨?_, ?_, ?_⟩
  · refine runThrottle_inv ops initialThrottle 0 ⟨trivial, rfl, ?_, le_refl 0⟩ hops
    intro d hd
    exact Option.noConfusion hd
  · unfold updateCardOp
    dsimp only
    rw [if_pos hfast]
    exact ⟨rfl, rfl, rfl⟩
  · exact ⟨rfl, rfl, fun m => rfl⟩

/-- C9 witness: a concrete burst of updates with a trailing timer firing. -/
theorem C9_throttle_witness :
    spacedBy minUpdateInterval
      ((runThrottle initialThrottle
        [ThrottleOp.update 1500 1, ThrottleOp.update 1600 2,
         ThrottleOp.fire 2500]).issued.map Prod.fst) :=
  (C9_throttle
    [ThrottleOp.update 1500 1, ThrottleOp.update 1600 2, ThrottleOp.fire 2500]
    ⟨by decide, by decide, by decide, trivial⟩
    pendingTS 5400 9 (by decide)).1

/-- C10: for a key with no session in the store, `setStatus`, `setState` and
`clearState` are silent no-ops that neither create a session nor store
interactive state; in particular the `executeTask` handle-storing `setState`
records nothing. -/
theorem C10_missing_session_noop (sm : SMState) (key : String)
    (h : alookup key sm.sessions = none) (status : SessionStatus)
    (p : PartialSessionState) (taskId chatId : String) (hd : Handle) (now : Nat) :
    sm.setStatus key status = sm ∧
    sm.setState key p = sm ∧
    sm.clearState key = sm ∧
    SMState.getState (sm.setState key (startExecPartial taskId hd chatId now)) key =
      none := by
  refine ⟨?_, ?_, ?_, ?_⟩ <;>
    simp [SMState.setStatus, SMState.setState, SMState.clearState, SMState.getState, h]

/-- C10 witness: the no-op facts at a concrete store and absent key. -/
theorem C10_missing_session_noop_witness :
    waitingSM.setStatus "b:u2" SessionStatus.executing = waitingSM ∧
    waitingSM.setState "b:u2" ({} : PartialSessionState) = waitingSM ∧
    waitingSM.clearState "b:u2" = waitingSM ∧
    SMState.getState (waitingSM.setState "b:u2" (startExecPartial "t1" exHandle "c1" 0))
      "b:u2" = none :=
  C10_missing_session_noop waitingSM "b:u2" (by decide) SessionStatus.executing
    ({} : PartialSessionState) "t1" "c1" exHandle 0

end XTBridge
